import Mathlib

/-!
Shallow embedding of the automation script `psych_git.py` (AI YouTube shorts
factory).  Python strings are modelled as `List Char`; the Python string
primitives used by the script (`str.split`, `str.replace`, `str.strip`,
`int(...)`, `str(...)` on a non-negative integer) are given executable
models below, restricted to ASCII whitespace.  The three behaviours the
claims are about are embedded from the source:

* the response parser inside `create_quote_content` (lines 126-134),
* the retry loop of `create_quote_content` (lines 81-136), with the
  spreadsheet fetch and the generation calls recorded as an event trace,
* the sequential background-video selector of `generate_video_with_music`
  (lines 174-187),
* the tag splitter of `generate_extra_tags` (lines 148-153).
-/

/-- ASCII whitespace, the characters removed by Python's `str.strip()`
(restricted to the ASCII range). -/
def pyIsSpace (c : Char) : Bool :=
  c == ' ' || c == '\t' || c == '\n' || c == '\r' || c == '\x0b' || c == '\x0c'

/-- Remove leading ASCII whitespace. -/
def trimLeft (s : List Char) : List Char := s.dropWhile pyIsSpace

/-- Remove trailing ASCII whitespace. -/
def trimRight (s : List Char) : List Char :=
  (s.reverse.dropWhile pyIsSpace).reverse

/-- Model of Python `str.strip()` (ASCII whitespace). -/
def pyStrip (s : List Char) : List Char := trimRight (trimLeft s)

/-- Prepend a character to the first group of a split result
(helper for `pySplitF`). -/
def consHead (c : Char) : List (List Char) → List (List Char)
  | [] => [[c]]
  | g :: gs => (c :: g) :: gs

/-- Fuelled scanner behind `pySplit`.  At each position it checks whether the
separator starts there; if so it closes the current group and skips the
separator, otherwise the character joins the current group.  The fuel only
serves structural termination: `s.length` steps always suffice. -/
def pySplitF (sep : List Char) : Nat → List Char → List (List Char)
  | 0, _ => [[]]
  | _ + 1, [] => [[]]
  | f + 1, c :: cs =>
    if sep ≠ [] ∧ sep.isPrefixOf (c :: cs) then
      [] :: pySplitF sep f ((c :: cs).drop sep.length)
    else
      consHead c (pySplitF sep f cs)

/-- Model of Python `str.split(sep)` for a non-empty separator: the groups
between the non-overlapping left-to-right occurrences of `sep`.  Python's
`"".split(sep)` is `[""]`, and the result always has at least one group. -/
def pySplit (sep s : List Char) : List (List Char) := pySplitF sep s.length s

/-- Model of Python `str.replace(old, "")` for a non-empty `old`: Python
guarantees `s.replace(old, "") == "".join(s.split(old))`. -/
def pyReplace (old s : List Char) : List Char :=
  (pySplit old s).foldr (· ++ ·) []

/-- Scanner predicate: `occursB sep s` scans `s` and reports whether `sep` occurs in it as a
contiguous substring. -/
def occursB (sep : List Char) : List Char → Bool
  | [] => sep.isEmpty
  | c :: cs => sep.isPrefixOf (c :: cs) || occursB sep cs

/-- The literal marker `PART_1:` (psych_git.py line 127). -/
def PART1M : List Char := "PART_1:".toList

/-- The literal marker `PART_2:` (psych_git.py lines 127-128). -/
def PART2M : List Char := "PART_2:".toList

/-- The literal marker `TITLE:` (psych_git.py lines 128-129). -/
def TITLEM : List Char := "TITLE:".toList

/-- The parsing step of `create_quote_content` (psych_git.py lines 126-131):

    part1 = response.text.split("PART_2:")[0].replace("PART_1:", "").strip()
    part2 = response.text.split("TITLE:")[0].split("PART_2:")[1].strip()
    title = response.text.split("TITLE:")[1].strip()

A Python index `[i]` raises `IndexError` when out of range and the whole
block is guarded by `try/except`, so each `[i]` is modelled by `List.get?`
bound in `Option`, in the source's evaluation order. -/
def parseQuoteResponse (text : List Char) :
    Option (List Char × List Char × List Char) :=
  Option.bind ((pySplit PART2M text).get? 0) (fun s0 =>
    let part1 := pyStrip (pyReplace PART1M s0)
    Option.bind ((pySplit TITLEM text).get? 0) (fun t0 =>
      Option.bind ((pySplit PART2M t0).get? 1) (fun mid =>
        let part2 := pyStrip mid
        Option.bind ((pySplit TITLEM text).get? 1) (fun t1 =>
          some (part1, part2, pyStrip t1)))))

/-- The well-formed response shape `PART_1: A\nPART_2: B\nTITLE: C`. -/
def quoteTemplate (A B C : List Char) : List Char :=
  PART1M ++ ' ' :: A ++ '\n' :: PART2M ++ ' ' :: B ++ '\n' :: TITLEM ++ ' ' :: C

/-- The tag splitter of `generate_extra_tags` (psych_git.py line 151):
`tags = [tag.strip() for tag in response.text.split(',')]`. -/
def generate_extra_tags (text : List Char) : List (List Char) :=
  (pySplit [','] text).map pyStrip

/-- Decimal digit character (helper for `natToStr`). -/
def digitChar (d : Nat) : Char := Char.ofNat (48 + d)

/-- Fuelled big-endian decimal printer (helper for `natToStr`); `n < fuel`
always gives the correct digit string. -/
def natToStrAux : Nat → Nat → List Char
  | 0, _ => []
  | f + 1, n =>
    if n < 10 then [digitChar n]
    else natToStrAux f (n / 10) ++ [digitChar (n % 10)]

/-- Model of Python `str(n)` for a non-negative integer `n`. -/
def natToStr (n : Nat) : List Char := natToStrAux (n + 1) n

/-- Accumulator step of decimal digit evaluation (proof helper). -/
def digStep (a : Nat) (c : Char) : Nat := a * 10 + (c.toNat - 48)

/-- Digit run accepted after the first digit by Python's `int(...)`:
digits, with single underscores allowed between digits. -/
def digitsCore (acc : Nat) : List Char → Option Nat
  | [] => some acc
  | c :: cs =>
    if c.isDigit then digitsCore (acc * 10 + (c.toNat - 48)) cs
    else if c = '_' then
      match cs with
      | [] => none
      | c2 :: cs2 =>
        if c2.isDigit then digitsCore (acc * 10 + (c2.toNat - 48)) cs2
        else none
    else none

/-- A non-empty digit run (first character must be a digit). -/
def parseDigits : List Char → Option Nat
  | [] => none
  | c :: cs => if c.isDigit then digitsCore (c.toNat - 48) cs else none

/-- Model of Python `int(s)` on ASCII text: surrounding whitespace is
stripped, an optional sign is accepted, and the rest must be a valid digit
run; `none` models the `ValueError` Python raises otherwise. -/
def pyIntParse (s : List Char) : Option Int :=
  match pyStrip s with
  | [] => none
  | c :: cs =>
    if c = '+' then (parseDigits cs).map (fun n => (n : Int))
    else if c = '-' then (parseDigits cs).map (fun n => -(n : Int))
    else (parseDigits (c :: cs)).map (fun n => (n : Int))

/-- Reading the selector state (psych_git.py lines 174-179): a missing file,
or file text that `int(...)` rejects, yields `-1`. -/
def readLastIndex (file : Option (List Char)) : Int :=
  match file with
  | none => -1
  | some s =>
    match pyIntParse s with
    | some n => n
    | none => -1

/-- One call of the sequential selector (psych_git.py lines 174-186) over a
directory of `N` background videos, given the current state-file contents:
`next_index = (last_index + 1) % N`, returned together with the text written
back to the state file (`str(next_index)`; for `N ≥ 1` the index is
non-negative, and the caller aborts before this point when `N = 0`).
Lean's `Int.emod` agrees with Python's `%` for a positive modulus. -/
def selectorStep (N : Nat) (file : Option (List Char)) : Int × List Char :=
  let next_index : Int := (readLastIndex file + 1) % (N : Int)
  (next_index, natToStr next_index.toNat)

/-- State-file contents before the `(k+1)`-th selector call of a fresh
sequence: no file at first, afterwards whatever the previous call wrote. -/
def selState (N : Nat) : Nat → Option (List Char)
  | 0 => none
  | k + 1 => some (selectorStep N (selState N k)).2

/-- Index returned by the `(k+1)`-th selector call of a fresh sequence. -/
def selIdx (N : Nat) (k : Nat) : Int := (selectorStep N (selState N k)).1

/-- A (hook, reveal, title) triple as returned by `create_quote_content`. -/
abbrev PyTriple := List Char × List Char × List Char

/-- A Python exception value (its message text). -/
abbrev PyErr := List Char

/-- The sentinel returned after five failed attempts
(psych_git.py line 136). -/
def sentinelTriple : PyTriple :=
  ("Error".toList, "Could not generate unique quote.".toList, "Error".toList)

/-- External calls made by `create_quote_content`, in program order:
one spreadsheet history fetch (with its success flag) and one
text-generation call per attempt. -/
inductive Ev where
  | fetchHistory : Bool → Ev
  | genCall : Nat → Ev
deriving DecidableEq, Repr

/-- Is this event a text-generation call? -/
def isGenEv : Ev → Bool
  | .genCall _ => true
  | .fetchHistory _ => false

/-- Number of text-generation calls in a trace. -/
def genCount (evs : List Ev) : Nat := (evs.filter isGenEv).length

/-- Number of spreadsheet history fetches in a trace. -/
def fetchCount (evs : List Ev) : Nat :=
  (evs.filter (fun e => !isGenEv e)).length

/-- Model of `"\n".join(f"- {quote}" for quote in used_quotes)`
(psych_git.py line 83). -/
def historyJoin : List (List Char) → List Char
  | [] => []
  | [q] => "- ".toList ++ q
  | q :: q2 :: qs => "- ".toList ++ q ++ '\n' :: historyJoin (q2 :: qs)

/-- The `for attempt in range(MAX_ATTEMPTS)` loop of `create_quote_content`
(psych_git.py lines 89-134).  `responses attempt` is the outcome of the
unguarded `gemini_model.generate_content` call of that attempt: `.ok` the
response text, `.error` an exception, which the loop does not catch.  Only
the parsing step is inside `try/except`; a parse failure moves to the next
attempt, and falling off the loop yields the sentinel together with the
number of attempts actually made. -/
def quoteLoop (responses : Nat → Except PyErr (List Char)) :
    Nat → Nat → Except PyErr (PyTriple × Nat) × List Ev
  | 0, attempt => (.ok (sentinelTriple, attempt), [])
  | fuel + 1, attempt =>
    match responses attempt with
    | .error e => (.error e, [Ev.genCall attempt])
    | .ok resp =>
      match parseQuoteResponse resp with
      | some t => (.ok (t, attempt + 1), [Ev.genCall attempt])
      | none =>
        let r := quoteLoop responses fuel (attempt + 1)
        (r.1, Ev.genCall attempt :: r.2)

/-- Constant `MAX_ATTEMPTS = 5` (psych_git.py line 88). -/
def MAX_ATTEMPTS : Nat := 5

/-- Model of `create_quote_content` (psych_git.py lines 77-136).  Before the loop it
fetches the spreadsheet history once inside `try/except`: on success the
prompt history text is built from `sheet.col_values(1)[1:]`, on failure it
is the placeholder `"None."`.  Returns the loop outcome, the event trace
(in program order), and the history text used in the prompts. -/
def create_quote_content (fetch : Except PyErr (List (List Char)))
    (responses : Nat → Except PyErr (List Char)) :
    Except PyErr (PyTriple × Nat) × List Ev × List Char :=
  let history_list : List Char :=
    match fetch with
    | .ok col => historyJoin (col.drop 1)
    | .error _ => "None.".toList
  let fetchOk : Bool := match fetch with | .ok _ => true | .error _ => false
  let r := quoteLoop responses MAX_ATTEMPTS 0
  (r.1, Ev.fetchHistory fetchOk :: r.2, history_list)

theorem consHead_ne_nil (c : Char) (l : List (List Char)) : consHead c l ≠ [] := by
  cases l <;> simp [consHead]

theorem pySplitF_fuel (sep : List Char) :
    ∀ f g s, s.length ≤ f → s.length ≤ g → pySplitF sep f s = pySplitF sep g s := by
  intro f
  induction f with
  | zero =>
    intro g s hf _
    have hs : s = [] := List.eq_nil_of_length_eq_zero (Nat.le_zero.mp hf)
    subst hs
    cases g <;> rfl
  | succ f ih =>
    intro g s hf hg
    cases s with
    | nil => cases g <;> rfl
    | cons c cs =>
      cases g with
      | zero => simp at hg
      | succ g' =>
        have hcf : cs.length ≤ f := Nat.le_of_succ_le_succ hf
        have hcg : cs.length ≤ g' := Nat.le_of_succ_le_succ hg
        simp only [pySplitF]
        split
        next h =>
          have hsep : 1 ≤ sep.length := by
            cases hsl : sep with
            | nil => exact absurd hsl h.1
            | cons a as => simp
          congr 1
          apply ih
          · simp only [List.length_drop, List.length_cons]
            omega
          · simp only [List.length_drop, List.length_cons]
            omega
        next =>
          congr 1
          exact ih g' cs hcf hcg

theorem pySplit_nil (sep : List Char) : pySplit sep [] = [[]] := rfl

theorem pySplit_cons_pos (sep : List Char) (c : Char) (cs : List Char)
    (hsep : sep ≠ []) (hpre : sep.isPrefixOf (c :: cs) = true) :
    pySplit sep (c :: cs) = [] :: pySplit sep ((c :: cs).drop sep.length) := by
  have hsl : 1 ≤ sep.length := by
    cases hl : sep with
    | nil => exact absurd hl hsep
    | cons a as => simp
  simp only [pySplit, List.length_cons, pySplitF, if_pos (And.intro hsep hpre)]
  congr 1
  apply pySplitF_fuel
  · simp only [List.length_drop, List.length_cons]; omega
  · exact Nat.le_refl _

theorem pySplit_cons_neg (sep : List Char) (c : Char) (cs : List Char)
    (h : ¬ (sep ≠ [] ∧ sep.isPrefixOf (c :: cs) = true)) :
    pySplit sep (c :: cs) = consHead c (pySplit sep cs) := by
  simp only [pySplit, List.length_cons, pySplitF, if_neg h]

theorem pySplit_ne_nil (sep s : List Char) : pySplit sep s ≠ [] := by
  cases s with
  | nil => simp [pySplit_nil]
  | cons c cs =>
    by_cases h : sep ≠ [] ∧ sep.isPrefixOf (c :: cs) = true
    · rw [pySplit_cons_pos sep c cs h.1 h.2]; simp
    · rw [pySplit_cons_neg sep c cs h]; exact consHead_ne_nil c _

theorem occursB_nil_sep (s : List Char) : occursB [] s = true := by
  cases s <;> simp [occursB, List.isPrefixOf]

theorem sep_ne_nil_of_occursB_false {sep s : List Char}
    (h : occursB sep s = false) : sep ≠ [] := by
  intro he
  subst he
  rw [occursB_nil_sep] at h
  simp at h

theorem occursB_cons (sep : List Char) (c : Char) (cs : List Char) :
    occursB sep (c :: cs) = (sep.isPrefixOf (c :: cs) || occursB sep cs) := rfl

theorem occursB_append_of {sep : List Char} (t r : List Char)
    (h : occursB sep t = true) : occursB sep (t ++ r) = true := by
  induction t with
  | nil =>
    have hsep : sep = [] := by simpa [occursB, List.isEmpty_iff] using h
    subst hsep
    exact occursB_nil_sep r
  | cons c cs ih =>
    rw [occursB_cons] at h
    rw [List.cons_append, occursB_cons]
    rcases Bool.or_eq_true_iff.mp h with hp | ho
    · refine Bool.or_eq_true_iff.mpr (Or.inl ?_)
      rw [ List.isPrefixOf_iff_prefix] at hp ⊢
      exact hp.trans (List.prefix_append (c :: cs) r)
    · exact Bool.or_eq_true_iff.mpr (Or.inr (ih ho))

theorem occursB_false_mono {sep s t : List Char} (hp : t <+: s)
    (h : occursB sep s = false) : occursB sep t = false := by
  obtain ⟨r, rfl⟩ := hp
  by_contra hb
  rw [occursB_append_of t r (Bool.not_eq_false _ ▸ hb)] at h
  simp at h

theorem pySplit_of_not_occurs (sep : List Char) :
    ∀ s, occursB sep s = false → pySplit sep s = [s] := by
  intro s
  induction s with
  | nil => intro _; exact pySplit_nil sep
  | cons c cs ih =>
    intro h
    rw [occursB_cons] at h
    rcases Bool.or_eq_false_iff.mp h with ⟨h1, h2⟩
    rw [pySplit_cons_neg sep c cs (fun hc => by rw [hc.2] at h1; simp at h1)]
    rw [ih h2]
    rfl

theorem pySplit_append_sep (sep : List Char) :
    ∀ x y, occursB sep (x ++ sep.dropLast) = false →
      pySplit sep (x ++ sep ++ y) = x :: pySplit sep y := by
  intro x
  induction x with
  | nil =>
    intro y h
    simp only [List.nil_append] at h ⊢
    have hsep : sep ≠ [] := sep_ne_nil_of_occursB_false h
    cases hs : sep with
    | nil => exact absurd hs hsep
    | cons a as =>
      rw [← hs]
      have hpre : sep.isPrefixOf (sep ++ y) = true :=
        List.isPrefixOf_iff_prefix.mpr (List.prefix_append sep y)
      have hcons : sep ++ y = a :: (as ++ y) := by rw [hs]; rfl
      rw [hcons] at hpre ⊢
      rw [pySplit_cons_pos sep a (as ++ y) hsep hpre, ← hcons, List.drop_left]
  | cons c cs ih =>
    intro y h
    have hsep : sep ≠ [] := sep_ne_nil_of_occursB_false h
    have hsl : 1 ≤ sep.length := by
      cases hl : sep with
      | nil => exact absurd hl hsep
      | cons a as => simp
    rw [List.cons_append, occursB_cons] at h
    rcases Bool.or_eq_false_iff.mp h with ⟨h1, h2⟩
    have hnp : sep.isPrefixOf ((c :: cs) ++ sep ++ y) = false := by
      by_contra hb
      have hp : sep <+: (c :: cs) ++ sep ++ y :=
        List.isPrefixOf_iff_prefix.mp (Bool.not_eq_false _ ▸ hb)
      have hshape : (c :: cs) ++ sep ++ y =
          ((c :: cs) ++ sep.dropLast) ++ (sep.getLast hsep :: y) := by
        conv_lhs => rw [← List.dropLast_append_getLast hsep]
        simp [List.append_assoc]
      have ha : (c :: cs) ++ sep.dropLast <+: (c :: cs) ++ sep ++ y := by
        rw [hshape]; exact List.prefix_append _ _
      have hlen : sep.length ≤ ((c :: cs) ++ sep.dropLast).length := by
        simp only [List.length_append, List.length_cons, List.length_dropLast]
        omega
      have : sep <+: (c :: cs) ++ sep.dropLast :=
        List.prefix_of_prefix_length_le hp ha hlen
      rw [ List.isPrefixOf_iff_prefix.mpr (by rw [List.cons_append] at this; exact this)] at h1
      simp at h1
    rw [List.cons_append, List.cons_append] at hnp ⊢
    rw [pySplit_cons_neg sep c (cs ++ sep ++ y)
      (fun hc => by rw [hc.2] at hnp; simp at hnp)]
    rw [ih y h2]
    rfl

theorem pySplit_first_piece (sep : List Char) :
    ∀ s, ∃ p, (pySplit sep s).get? 0 = some p ∧ p <+: s := by
  intro s
  induction s with
  | nil =>
    refine ⟨[], ?_, List.nil_prefix⟩
    rw [pySplit_nil]
    rfl
  | cons c cs ih =>
    by_cases hc : sep ≠ [] ∧ sep.isPrefixOf (c :: cs) = true
    · refine ⟨[], ?_, List.nil_prefix⟩
      rw [pySplit_cons_pos sep c cs hc.1 hc.2]
      rfl
    · obtain ⟨p, hp, hpre⟩ := ih
      rw [pySplit_cons_neg sep c cs hc]
      cases hl : pySplit sep cs with
      | nil => exact absurd hl (pySplit_ne_nil sep cs)
      | cons g gs =>
        rw [hl] at hp
        have hg : g = p := by
          simp only [List.get?] at hp
          exact Option.some.inj hp
        subst hg
        exact ⟨c :: g, rfl, List.cons_prefix_cons.mpr ⟨rfl, hpre⟩⟩

theorem trimLeft_cons_space (c : Char) (s : List Char) (h : pyIsSpace c = true) :
    trimLeft (c :: s) = trimLeft s := by
  simp [trimLeft, List.dropWhile_cons, h]

theorem trimLeft_cons_other (c : Char) (s : List Char) (h : pyIsSpace c = false) :
    trimLeft (c :: s) = c :: s := by
  simp [trimLeft, List.dropWhile_cons, h]

theorem pyStrip_cons_space (c : Char) (s : List Char) (h : pyIsSpace c = true) :
    pyStrip (c :: s) = pyStrip s := by
  simp [pyStrip, trimLeft_cons_space c s h]

theorem trimRight_append_space (c : Char) (s : List Char) (h : pyIsSpace c = true) :
    trimRight (s ++ [c]) = trimRight s := by
  simp [trimRight, List.reverse_append, List.dropWhile_cons, h]

theorem pyStrip_append_space (c : Char) (s : List Char) (h : pyIsSpace c = true) :
    pyStrip (s ++ [c]) = pyStrip s := by
  induction s with
  | nil => simp [pyStrip, trimLeft, trimRight, List.dropWhile_cons, h]
  | cons a as ih =>
    by_cases ha : pyIsSpace a = true
    · rw [List.cons_append, pyStrip_cons_space a (as ++ [c]) ha, ih,
        pyStrip_cons_space a as ha]
    · have ha' : pyIsSpace a = false := by
        cases hv : pyIsSpace a
        · rfl
        · exact absurd hv ha
      rw [List.cons_append, pyStrip, trimLeft_cons_other a _ ha',
        pyStrip, trimLeft_cons_other a _ ha', ← List.cons_append,
        trimRight_append_space c _ h]

theorem pyStrip_eq_self_of_no_space {s : List Char}
    (h : ∀ c ∈ s, pyIsSpace c = false) : pyStrip s = s := by
  cases s with
  | nil => rfl
  | cons a as =>
    have ha : pyIsSpace a = false := h a (by simp)
    rw [pyStrip, trimLeft_cons_other a _ ha]
    cases hr : (a :: as).reverse with
    | nil => simp at hr
    | cons b bs =>
      have hb : pyIsSpace b = false := by
        refine h b ?_
        rw [← List.mem_reverse, hr]
        simp
      calc trimRight (a :: as) = ((b :: bs).dropWhile pyIsSpace).reverse := by
            rw [trimRight, hr]
        _ = (b :: bs).reverse := by rw [List.dropWhile_cons, hb]; simp
        _ = a :: as := by rw [← hr, List.reverse_reverse]

theorem pyReplace_marker (old z : List Char)
    (hd : occursB old old.dropLast = false) (hz : occursB old z = false) :
    pyReplace old (old ++ z) = z := by
  have h3 : pySplit old (old ++ z) = [] :: pySplit old z := by
    have h := pySplit_append_sep old [] z (by simpa using hd)
    simpa using h
  rw [pyReplace, h3, pySplit_of_not_occurs old z hz]
  simp

/-- Claim C2: a response following the template `PART_1: A\nPART_2: B\nTITLE: C`,
in which each marker occurs exactly once and in that order (the payloads
neither contain a marker nor complete one at a template boundary, stated as
the `occursB` side conditions), parses successfully to exactly
`(A, B, C)` with surrounding whitespace stripped from each component. -/
theorem claim2_parser_wellformed (A B C : List Char)
    (hA : occursB PART1M (' ' :: A ++ ['\n']) = false)
    (h1 : occursB PART2M ((PART1M ++ ' ' :: A ++ ['\n']) ++ PART2M.dropLast) = false)
    (h2 : occursB TITLEM
      ((PART1M ++ ' ' :: A ++ '\n' :: PART2M ++ ' ' :: B ++ ['\n']) ++ TITLEM.dropLast) = false)
    (h3 : occursB PART2M (' ' :: B ++ ['\n']) = false)
    (h4 : occursB TITLEM (' ' :: C) = false) :
    parseQuoteResponse (quoteTemplate A B C) =
      some (pyStrip A, pyStrip B, pyStrip C) := by
  have e1 : quoteTemplate A B C =
      (PART1M ++ ' ' :: A ++ ['\n']) ++ PART2M ++
        (' ' :: B ++ '\n' :: TITLEM ++ ' ' :: C) := by
    simp [quoteTemplate, List.append_assoc]
  have e2 : quoteTemplate A B C =
      (PART1M ++ ' ' :: A ++ '\n' :: PART2M ++ ' ' :: B ++ ['\n']) ++ TITLEM ++
        (' ' :: C) := by
    simp [quoteTemplate, List.append_assoc]
  have e3 : PART1M ++ ' ' :: A ++ '\n' :: PART2M ++ ' ' :: B ++ ['\n'] =
      (PART1M ++ ' ' :: A ++ ['\n']) ++ PART2M ++ (' ' :: B ++ ['\n']) := by
    simp [List.append_assoc]
  have s1 : pySplit PART2M (quoteTemplate A B C) =
      (PART1M ++ ' ' :: A ++ ['\n']) ::
        pySplit PART2M (' ' :: B ++ '\n' :: TITLEM ++ ' ' :: C) := by
    rw [e1]
    exact pySplit_append_sep PART2M _ _ h1
  have s2 : pySplit TITLEM (quoteTemplate A B C) =
      (PART1M ++ ' ' :: A ++ '\n' :: PART2M ++ ' ' :: B ++ ['\n']) ::
        pySplit TITLEM (' ' :: C) := by
    rw [e2]
    exact pySplit_append_sep TITLEM _ _ h2
  have s3 : pySplit PART2M
      (PART1M ++ ' ' :: A ++ '\n' :: PART2M ++ ' ' :: B ++ ['\n']) =
      (PART1M ++ ' ' :: A ++ ['\n']) :: [' ' :: B ++ ['\n']] := by
    rw [e3, pySplit_append_sep PART2M _ _ h1, pySplit_of_not_occurs PART2M _ h3]
  have s4 : pySplit TITLEM (' ' :: C) = [' ' :: C] :=
    pySplit_of_not_occurs TITLEM _ h4
  have r1 : pyReplace PART1M (PART1M ++ ' ' :: A ++ ['\n']) = ' ' :: A ++ ['\n'] := by
    have e4 : PART1M ++ ' ' :: A ++ ['\n'] = PART1M ++ (' ' :: A ++ ['\n']) := by
      simp [List.append_assoc]
    rw [e4]
    exact pyReplace_marker PART1M _ (by decide) hA
  have st1 : pyStrip (' ' :: A ++ ['\n']) = pyStrip A := by
    rw [List.cons_append, pyStrip_cons_space ' ' _ (by decide),
      pyStrip_append_space '\n' _ (by decide)]
  have st2 : pyStrip (' ' :: B ++ ['\n']) = pyStrip B := by
    rw [List.cons_append, pyStrip_cons_space ' ' _ (by decide),
      pyStrip_append_space '\n' _ (by decide)]
  have st3 : pyStrip (' ' :: C) = pyStrip C := pyStrip_cons_space ' ' _ (by decide)
  rw [parseQuoteResponse, s1, s2]
  simp only [List.get?_cons_zero, List.get?_cons_succ, Option.some_bind]
  rw [s3]
  simp only [List.get?_cons_zero, List.get?_cons_succ, Option.some_bind, s4]
  rw [r1, st1, st2, st3]

/-- Witness for C2 at a concrete well-formed response. -/
theorem claim2_parser_wellformed_witness :
    parseQuoteResponse (quoteTemplate ("The hook".toList) ("the reveal".toList)
        ("A Title".toList)) =
      some ("The hook".toList, "the reveal".toList, "A Title".toList) := by
  rw [claim2_parser_wellformed ("The hook".toList) ("the reveal".toList)
    ("A Title".toList) (by decide) (by decide) (by decide) (by decide) (by decide)]
  decide

/-- Counterexample to claim C3 as stated: this response does not contain the
`PART_1:` marker at all (so it also does not match the full template), yet
the parser succeeds, because `str.replace` is a no-op when its pattern is
absent and nothing checks for `PART_1:`. -/
theorem claim3_counterexample :
    occursB PART1M ("hook PART_2: b\nTITLE: c".toList) = false ∧
      parseQuoteResponse ("hook PART_2: b\nTITLE: c".toList) ≠ none := by
  decide

/-- Claim C3 amended: parsing fails whenever `PART_2:` or `TITLE:` is absent
from the response; absence of `PART_1:` alone does not make parsing fail. -/
theorem claim3_parse_failure (text : List Char)
    (h : occursB PART2M text = false ∨ occursB TITLEM text = false) :
    parseQuoteResponse text = none := by
  rcases h with h | h
  · have s1 : pySplit PART2M text = [text] := pySplit_of_not_occurs _ _ h
    obtain ⟨p, hp, hpre⟩ := pySplit_first_piece TITLEM text
    have h2 : occursB PART2M p = false := occursB_false_mono hpre h
    have s2 : pySplit PART2M p = [p] := pySplit_of_not_occurs _ _ h2
    rw [parseQuoteResponse, s1]
    simp only [List.get?_cons_zero, Option.some_bind]
    rw [hp]
    simp only [Option.some_bind]
    rw [s2]
    simp [List.get?]
  · have sT : pySplit TITLEM text = [text] := pySplit_of_not_occurs _ _ h
    obtain ⟨q, hq, _⟩ := pySplit_first_piece PART2M text
    rw [parseQuoteResponse, hq]
    simp only [Option.some_bind]
    rw [sT]
    simp only [List.get?_cons_zero, Option.some_bind]
    cases hm : (pySplit PART2M text).get? 1 with
    | none => simp
    | some mid =>
      simp [List.get?]

/-- Witness for the amended C3 at a concrete marker-free response. -/
theorem claim3_parse_failure_witness :
    parseQuoteResponse ("no markers here".toList) = none :=
  claim3_parse_failure ("no markers here".toList) (Or.inl (by decide))

/-- Claim C8: the tag brainstormer splits the response on commas and trims
each entry, so `"a, b ,c"` yields exactly `["a", "b", "c"]`; and every
response text, the empty string included, yields at least one
(possibly empty) tag. -/
theorem claim8_tag_split :
    generate_extra_tags ("a, b ,c".toList) =
        ["a".toList, "b".toList, "c".toList] ∧
      ∀ text : List Char, 1 ≤ (generate_extra_tags text).length := by
  constructor
  · decide
  · intro text
    rw [generate_extra_tags, List.length_map]
    cases h : pySplit [','] text with
    | nil => exact absurd h (pySplit_ne_nil [','] text)
    | cons g gs => simp

theorem genCount_cons_gen (a : Nat) (l : List Ev) :
    genCount (Ev.genCall a :: l) = genCount l + 1 := by
  simp [genCount, List.filter, isGenEv]

theorem genCount_cons_fetch (b : Bool) (l : List Ev) :
    genCount (Ev.fetchHistory b :: l) = genCount l := by
  simp [genCount, List.filter, isGenEv]

theorem fetchCount_cons_gen (a : Nat) (l : List Ev) :
    fetchCount (Ev.genCall a :: l) = fetchCount l := by
  simp [fetchCount, List.filter, isGenEv]

theorem fetchCount_cons_fetch (b : Bool) (l : List Ev) :
    fetchCount (Ev.fetchHistory b :: l) = fetchCount l + 1 := by
  simp [fetchCount, List.filter, isGenEv]

theorem quoteLoop_fst_all_fail (responses : Nat → Except PyErr (List Char)) :
    ∀ fuel a,
      (∀ k, k < fuel → ∃ r, responses (a + k) = Except.ok r ∧
        parseQuoteResponse r = none) →
      (quoteLoop responses fuel a).1 = Except.ok (sentinelTriple, a + fuel) := by
  intro fuel
  induction fuel with
  | zero => intro a _; simp [quoteLoop]
  | succ f ih =>
    intro a h
    obtain ⟨r, hr, hp⟩ := h 0 (Nat.succ_pos f)
    rw [Nat.add_zero] at hr
    have h' : ∀ k, k < f → ∃ r, responses (a + 1 + k) = Except.ok r ∧
        parseQuoteResponse r = none := by
      intro k hk
      have hh := h (k + 1) (by omega)
      rwa [show a + (k + 1) = a + 1 + k from by omega] at hh
    simp only [quoteLoop, hr, hp]
    rw [ih (a + 1) h']
    congr 2
    omega

theorem quoteLoop_gen_le (responses : Nat → Except PyErr (List Char)) :
    ∀ fuel a, genCount (quoteLoop responses fuel a).2 ≤ fuel := by
  intro fuel
  induction fuel with
  | zero => intro a; simp [quoteLoop, genCount]
  | succ f ih =>
    intro a
    simp only [quoteLoop]
    cases hr : responses a with
    | error e => simp [genCount, List.filter, isGenEv]
    | ok resp =>
      dsimp only
      cases hp : parseQuoteResponse resp with
      | some t => simp [genCount, List.filter, isGenEv]
      | none =>
        dsimp only
        rw [genCount_cons_gen]
        have := ih (a + 1)
        omega

theorem quoteLoop_fetch_zero (responses : Nat → Except PyErr (List Char)) :
    ∀ fuel a, fetchCount (quoteLoop responses fuel a).2 = 0 := by
  intro fuel
  induction fuel with
  | zero => intro a; simp [quoteLoop, fetchCount]
  | succ f ih =>
    intro a
    simp only [quoteLoop]
    cases hr : responses a with
    | error e => simp [fetchCount, List.filter, isGenEv]
    | ok resp =>
      dsimp only
      cases hp : parseQuoteResponse resp with
      | some t => simp [fetchCount, List.filter, isGenEv]
      | none =>
        dsimp only
        rw [fetchCount_cons_gen]
        exact ih (a + 1)

theorem quoteLoop_success (responses : Nat → Except PyErr (List Char)) :
    ∀ fuel a k r t, k < fuel →
      (∀ j, j < k → ∃ rj, responses (a + j) = Except.ok rj ∧
        parseQuoteResponse rj = none) →
      responses (a + k) = Except.ok r → parseQuoteResponse r = some t →
      (quoteLoop responses fuel a).1 = Except.ok (t, a + k + 1) ∧
        genCount (quoteLoop responses fuel a).2 = k + 1 := by
  intro fuel
  induction fuel with
  | zero => intro a k r t hk; exact absurd hk (Nat.not_lt_zero k)
  | succ f ih =>
    intro a k r t hk hfail hr ht
    cases k with
    | zero =>
      rw [Nat.add_zero] at hr
      simp only [quoteLoop, hr, ht]
      exact ⟨trivial, by simp [genCount, List.filter, isGenEv]⟩
    | succ k' =>
      obtain ⟨r0, hr0, hp0⟩ := hfail 0 (Nat.succ_pos k')
      rw [Nat.add_zero] at hr0
      have hfail' : ∀ j, j < k' → ∃ rj, responses (a + 1 + j) = Except.ok rj ∧
          parseQuoteResponse rj = none := by
        intro j hj
        have hh := hfail (j + 1) (by omega)
        rwa [show a + (j + 1) = a + 1 + j from by omega] at hh
      have hr' : responses (a + 1 + k') = Except.ok r := by
        rwa [show a + (k' + 1) = a + 1 + k' from by omega] at hr
      obtain ⟨ih1, ih2⟩ := ih (a + 1) k' r t (by omega) hfail' hr' ht
      simp only [quoteLoop, hr0, hp0]
      refine ⟨?_, ?_⟩
      · rw [ih1]
        congr 2
        omega
      · rw [genCount_cons_gen, ih2]

theorem quoteLoop_error (responses : Nat → Except PyErr (List Char)) :
    ∀ fuel a k e, k < fuel →
      (∀ j, j < k → ∃ rj, responses (a + j) = Except.ok rj ∧
        parseQuoteResponse rj = none) →
      responses (a + k) = Except.error e →
      (quoteLoop responses fuel a).1 = Except.error e ∧
        genCount (quoteLoop responses fuel a).2 = k + 1 := by
  intro fuel
  induction fuel with
  | zero => intro a k e hk; exact absurd hk (Nat.not_lt_zero k)
  | succ f ih =>
    intro a k e hk hfail hr
    cases k with
    | zero =>
      rw [Nat.add_zero] at hr
      simp only [quoteLoop, hr]
      exact ⟨trivial, by simp [genCount, List.filter, isGenEv]⟩
    | succ k' =>
      obtain ⟨r0, hr0, hp0⟩ := hfail 0 (Nat.succ_pos k')
      rw [Nat.add_zero] at hr0
      have hfail' : ∀ j, j < k' → ∃ rj, responses (a + 1 + j) = Except.ok rj ∧
          parseQuoteResponse rj = none := by
        intro j hj
        have hh := hfail (j + 1) (by omega)
        rwa [show a + (j + 1) = a + 1 + j from by omega] at hh
      have hr' : responses (a + 1 + k') = Except.error e := by
        rwa [show a + (k' + 1) = a + 1 + k' from by omega] at hr
      obtain ⟨ih1, ih2⟩ := ih (a + 1) k' e (by omega) hfail' hr'
      simp only [quoteLoop, hr0, hp0]
      exact ⟨ih1, by rw [genCount_cons_gen, ih2]⟩

theorem create_quote_content_fst (fetch : Except PyErr (List (List Char)))
    (responses : Nat → Except PyErr (List Char)) :
    (create_quote_content fetch responses).1 =
      (quoteLoop responses MAX_ATTEMPTS 0).1 := rfl

theorem create_quote_content_trace (fetch : Except PyErr (List (List Char)))
    (responses : Nat → Except PyErr (List Char)) :
    ∃ b, (create_quote_content fetch responses).2.1 =
      Ev.fetchHistory b :: (quoteLoop responses MAX_ATTEMPTS 0).2 := ⟨_, rfl⟩

/-- Claim C4: within one generator call, if every attempt fails to parse the
generator makes exactly `MAX_ATTEMPTS = 5` generation calls and returns the
sentinel `("Error", "Could not generate unique quote.", "Error")`; if the
response of attempt `k` (`0`-based) is the first to parse, the generator
returns that parse immediately, after exactly `k + 1` generation calls; and
in every run at most 5 generation calls are made. -/
theorem claim4_retry_bound (fetch : Except PyErr (List (List Char)))
    (responses : Nat → Except PyErr (List Char)) :
    ((∀ k, k < MAX_ATTEMPTS → ∃ r, responses k = Except.ok r ∧
        parseQuoteResponse r = none) →
      (create_quote_content fetch responses).1 =
        Except.ok (sentinelTriple, MAX_ATTEMPTS)) ∧
    (∀ k r t, k < MAX_ATTEMPTS →
      (∀ j, j < k → ∃ rj, responses j = Except.ok rj ∧
        parseQuoteResponse rj = none) →
      responses k = Except.ok r → parseQuoteResponse r = some t →
      (create_quote_content fetch responses).1 = Except.ok (t, k + 1) ∧
        genCount (create_quote_content fetch responses).2.1 = k + 1) ∧
    genCount (create_quote_content fetch responses).2.1 ≤ MAX_ATTEMPTS := by
  obtain ⟨b, hb⟩ := create_quote_content_trace fetch responses
  refine ⟨?_, ?_, ?_⟩
  · intro h
    have h' : ∀ k, k < MAX_ATTEMPTS → ∃ r, responses (0 + k) = Except.ok r ∧
        parseQuoteResponse r = none := by
      intro k hk
      simpa [Nat.zero_add] using h k hk
    have hs := quoteLoop_fst_all_fail responses MAX_ATTEMPTS 0 h'
    rw [Nat.zero_add] at hs
    rw [create_quote_content_fst, hs]
  · intro k r t hk hfail hr ht
    have hfail' : ∀ j, j < k → ∃ rj, responses (0 + j) = Except.ok rj ∧
        parseQuoteResponse rj = none := by
      intro j hj
      simpa [Nat.zero_add] using hfail j hj
    have hr' : responses (0 + k) = Except.ok r := by
      simpa [Nat.zero_add] using hr
    obtain ⟨h1, h2⟩ := quoteLoop_success responses MAX_ATTEMPTS 0 k r t hk hfail' hr' ht
    rw [Nat.zero_add] at h1
    exact ⟨by rw [create_quote_content_fst, h1],
      by rw [hb, genCount_cons_fetch, h2]⟩
  · rw [hb, genCount_cons_fetch]
    exact quoteLoop_gen_le responses MAX_ATTEMPTS 0

/-- Witness for C4: with every response unparsable, the sentinel is returned
after the fifth attempt. -/
theorem claim4_retry_bound_witness :
    (create_quote_content (Except.ok [])
        (fun _ => Except.ok ("garbage".toList))).1 =
      Except.ok (sentinelTriple, MAX_ATTEMPTS) :=
  (claim4_retry_bound (Except.ok []) (fun _ => Except.ok ("garbage".toList))).1
    (fun _ _ => ⟨"garbage".toList, rfl, by decide⟩)

/-- Counterexample to claim C6 as stated: in a run whose five attempts all
fail, the spreadsheet history is fetched once, not once per attempt — the
fetch happens before the retry loop, so the fetch count differs from the
generation-call count. -/
theorem claim6_counterexample :
    genCount (create_quote_content (Except.ok [])
        (fun _ => Except.ok [])).2.1 = 5 ∧
      fetchCount (create_quote_content (Except.ok [])
        (fun _ => Except.ok [])).2.1 = 1 ∧
      fetchCount (create_quote_content (Except.ok [])
          (fun _ => Except.ok [])).2.1 ≠
        genCount (create_quote_content (Except.ok [])
          (fun _ => Except.ok [])).2.1 := by
  decide

/-- Claim C6 amended: the history list is fetched from the spreadsheet
exactly once per generator call, before the first generation attempt (it is
the first event of every run's trace); the same snapshot is used by all
attempts of that call. -/
theorem claim6_history_once (fetch : Except PyErr (List (List Char)))
    (responses : Nat → Except PyErr (List Char)) :
    fetchCount (create_quote_content fetch responses).2.1 = 1 ∧
      ∃ b, ((create_quote_content fetch responses).2.1).head? =
        some (Ev.fetchHistory b) := by
  obtain ⟨b, hb⟩ := create_quote_content_trace fetch responses
  constructor
  · rw [hb, fetchCount_cons_fetch, quoteLoop_fetch_zero]
  · exact ⟨b, by rw [hb]; rfl⟩

/-- Claim C7: when the spreadsheet history fetch fails, the generator uses
the placeholder `"None."` as the history text and otherwise behaves exactly
as on any successful fetch: the returned outcome and the attempt trace are
unchanged (the fetch result only influences the prompt text). -/
theorem claim7_history_fallback (e : PyErr) (col : List (List Char))
    (responses : Nat → Except PyErr (List Char)) :
    (create_quote_content (Except.error e) responses).2.2 = ("None.".toList) ∧
      (create_quote_content (Except.error e) responses).1 =
        (create_quote_content (Except.ok col) responses).1 ∧
      (create_quote_content (Except.error e) responses).2.1.tail =
        (create_quote_content (Except.ok col) responses).2.1.tail :=
  ⟨rfl, rfl, rfl⟩

/-- Claim C10: only parsing is guarded inside the retry loop; when the
text-generation call of attempt `k` raises (after `k` failed attempts), the
exception propagates out of the generator: no further attempt is made and
the sentinel is not produced. -/
theorem claim10_exception_propagates (fetch : Except PyErr (List (List Char)))
    (responses : Nat → Except PyErr (List Char)) (k : Nat) (e : PyErr)
    (hk : k < MAX_ATTEMPTS)
    (hfail : ∀ j, j < k → ∃ rj, responses j = Except.ok rj ∧
      parseQuoteResponse rj = none)
    (herr : responses k = Except.error e) :
    (create_quote_content fetch responses).1 = Except.error e ∧
      genCount (create_quote_content fetch responses).2.1 = k + 1 := by
  have hfail' : ∀ j, j < k → ∃ rj, responses (0 + j) = Except.ok rj ∧
      parseQuoteResponse rj = none := by
    intro j hj
    simpa [Nat.zero_add] using hfail j hj
  have herr' : responses (0 + k) = Except.error e := by
    simpa [Nat.zero_add] using herr
  obtain ⟨h1, h2⟩ := quoteLoop_error responses MAX_ATTEMPTS 0 k e hk hfail' herr'
  obtain ⟨b, hb⟩ := create_quote_content_trace fetch responses
  exact ⟨by rw [create_quote_content_fst, h1],
    by rw [hb, genCount_cons_fetch, h2]⟩

/-- Witness for C10: attempt 0 fails to parse, attempt 1 raises; the
exception comes out after exactly two generation calls. -/
theorem claim10_exception_propagates_witness :
    (create_quote_content (Except.ok [])
        (fun n => if n = 0 then Except.ok ("x".toList)
          else Except.error ("boom".toList))).1 =
        Except.error ("boom".toList) ∧
      genCount (create_quote_content (Except.ok [])
        (fun n => if n = 0 then Except.ok ("x".toList)
          else Except.error ("boom".toList))).2.1 = 2 := by
  refine claim10_exception_propagates (Except.ok [])
    (fun n => if n = 0 then Except.ok ("x".toList)
      else Except.error ("boom".toList)) 1 ("boom".toList) (by decide) ?_ rfl
  intro j hj
  have hj0 : j = 0 := by omega
  subst hj0
  exact ⟨"x".toList, rfl, by decide⟩


theorem digitChar_facts : ∀ d, d < 10 →
    (digitChar d).isDigit = true ∧ (digitChar d).toNat - 48 = d ∧
      pyIsSpace (digitChar d) = false ∧
      (digitChar d = '+') = False ∧ (digitChar d = '-') = False := by
  decide

theorem natToStrAux_digits : ∀ fuel n, n < fuel →
    ∀ c ∈ natToStrAux fuel n, c.isDigit = true := by
  intro fuel
  induction fuel with
  | zero => intro n h; omega
  | succ f ih =>
    intro n h c hc
    rw [natToStrAux] at hc
    by_cases h10 : n < 10
    · rw [if_pos h10] at hc
      simp only [List.mem_singleton] at hc
      subst hc
      exact (digitChar_facts n h10).1
    · rw [if_neg h10] at hc
      rcases List.mem_append.mp hc with hc | hc
      · have hdiv : n / 10 < f := by omega
        exact ih (n / 10) hdiv c hc
      · simp only [List.mem_singleton] at hc
        subst hc
        exact (digitChar_facts (n % 10) (by omega)).1

theorem natToStrAux_ne_nil : ∀ fuel n, n < fuel → natToStrAux fuel n ≠ [] := by
  intro fuel n h
  cases fuel with
  | zero => omega
  | succ f =>
    rw [natToStrAux]
    by_cases h10 : n < 10
    · rw [if_pos h10]; simp
    · rw [if_neg h10]; simp

theorem natToStrAux_foldl : ∀ fuel n acc, n < fuel →
    List.foldl digStep acc (natToStrAux fuel n) =
      acc * 10 ^ (natToStrAux fuel n).length + n := by
  intro fuel
  induction fuel with
  | zero => intro n acc h; omega
  | succ f ih =>
    intro n acc h
    rw [natToStrAux]
    by_cases h10 : n < 10
    · rw [if_pos h10]
      simp only [List.foldl_cons, List.foldl_nil, List.length_singleton, pow_one,
        digStep, (digitChar_facts n h10).2.1]
    · rw [if_neg h10]
      have hdiv : n / 10 < f := by omega
      rw [List.foldl_append, ih (n / 10) acc hdiv]
      simp only [List.foldl_cons, List.foldl_nil, List.length_append,
        List.length_singleton, digStep, (digitChar_facts (n % 10) (by omega)).2.1]
      have hdm : n / 10 * 10 + n % 10 = n := by omega
      calc (acc * 10 ^ (natToStrAux f (n / 10)).length + n / 10) * 10 + n % 10
          = acc * (10 ^ (natToStrAux f (n / 10)).length * 10) +
              (n / 10 * 10 + n % 10) := by ring
        _ = acc * 10 ^ ((natToStrAux f (n / 10)).length + 1) + n := by
            rw [pow_succ, hdm]

theorem digitsCore_digits : ∀ (xs : List Char) (acc : Nat),
    (∀ c ∈ xs, c.isDigit = true) →
    digitsCore acc xs = some (List.foldl digStep acc xs) := by
  intro xs
  induction xs with
  | nil => intro acc _; rfl
  | cons c cs ih =>
    intro acc h
    have hc : c.isDigit = true := h c (by simp)
    have heq : digitsCore acc (c :: cs) = digitsCore (digStep acc c) cs := by
      rw [digitsCore.eq_def]
      simp [hc, digStep]
    rw [heq, List.foldl_cons]
    exact ih (digStep acc c) (fun x hx => h x (List.mem_cons_of_mem c hx))

theorem parseDigits_natToStr (n : Nat) : parseDigits (natToStr n) = some n := by
  rw [natToStr]
  cases hL : natToStrAux (n + 1) n with
  | nil => exact absurd hL (natToStrAux_ne_nil (n + 1) n (Nat.lt_succ_self n))
  | cons c cs =>
    have hdig : ∀ x ∈ c :: cs, x.isDigit = true := by
      rw [← hL]
      exact natToStrAux_digits (n + 1) n (Nat.lt_succ_self n)
    have hc : c.isDigit = true := hdig c (by simp)
    have hf := natToStrAux_foldl (n + 1) n 0 (Nat.lt_succ_self n)
    rw [hL] at hf
    simp only [zero_mul, zero_add] at hf
    simp only [parseDigits, hc, if_true]
    rw [digitsCore_digits cs _ (fun x hx => hdig x (List.mem_cons_of_mem c hx))]
    rw [List.foldl_cons] at hf
    have hstep : digStep 0 c = c.toNat - 48 := by simp [digStep]
    rw [hstep] at hf
    rw [hf]

theorem digit_not_space : ∀ c : Char, c.isDigit = true → pyIsSpace c = false := by
  intro c h
  cases hv : pyIsSpace c
  · rfl
  · exfalso
    have hc := hv
    simp only [pyIsSpace, Bool.or_eq_true, beq_iff_eq] at hc
    rcases hc with ((((rfl | rfl) | rfl) | rfl) | rfl) | rfl <;>
      exact absurd h (by decide)

theorem pyIntParse_natToStr (n : Nat) : pyIntParse (natToStr n) = some (n : Int) := by
  have hdig : ∀ c ∈ natToStr n, c.isDigit = true :=
    natToStrAux_digits (n + 1) n (Nat.lt_succ_self n)
  have hstrip : pyStrip (natToStr n) = natToStr n :=
    pyStrip_eq_self_of_no_space (fun c hc => digit_not_space c (hdig c hc))
  have hparse : parseDigits (natToStr n) = some n := parseDigits_natToStr n
  unfold pyIntParse
  rw [hstrip]
  cases hL : natToStr n with
  | nil =>
    exact absurd (by rw [natToStr] at hL; exact hL)
      (natToStrAux_ne_nil (n + 1) n (Nat.lt_succ_self n))
  | cons c cs =>
    have hc : c.isDigit = true := by
      refine hdig c ?_
      rw [hL]
      simp
    have hplus : ¬ c = '+' := fun he => by
      rw [he] at hc; exact absurd hc (by decide)
    have hminus : ¬ c = '-' := fun he => by
      rw [he] at hc; exact absurd hc (by decide)
    rw [hL] at hparse
    simp only [if_neg hplus, if_neg hminus, hparse, Option.map_some]
    rfl

theorem readLastIndex_natToStr (m : Nat) :
    readLastIndex (some (natToStr m)) = (m : Int) := by
  simp [readLastIndex, pyIntParse_natToStr]

/-- Claim C5: a missing state file, or one whose text `int(...)` rejects, is
treated as a stored index of `-1`, so the selector call returns index `0`
for every candidate count `N ≥ 1`. -/
theorem claim5_missing_or_invalid_state (N : Nat) (hN : 1 ≤ N) :
    readLastIndex none = -1 ∧
      (selectorStep N none).1 = 0 ∧
      ∀ s : List Char, pyIntParse s = none →
        readLastIndex (some s) = -1 ∧ (selectorStep N (some s)).1 = 0 := by
  refine ⟨rfl, ?_, ?_⟩
  · show (readLastIndex none + 1) % (N : Int) = 0
    simp [readLastIndex]
  · intro s hs
    have hr : readLastIndex (some s) = -1 := by simp [readLastIndex, hs]
    refine ⟨hr, ?_⟩
    show (readLastIndex (some s) + 1) % (N : Int) = 0
    rw [hr]
    simp

/-- Witness for C5 with four candidates and the unparsable contents `abc`. -/
theorem claim5_missing_or_invalid_state_witness :
    (selectorStep 4 none).1 = 0 ∧ (selectorStep 4 (some ("abc".toList))).1 = 0 := by
  obtain ⟨-, h1, h2⟩ := claim5_missing_or_invalid_state 4 (by decide)
  exact ⟨h1, (h2 ("abc".toList) (by decide)).2⟩

/-- Claim C9 (implicit invariant): after any selector step with `N ≥ 1`
candidates, whatever the prior state file held, the returned index lies in
`[0, N-1]` and the text written to the state file parses back to exactly
that index. -/
theorem claim9_selector_invariant (N : Nat) (hN : 1 ≤ N)
    (file : Option (List Char)) :
    0 ≤ (selectorStep N file).1 ∧ (selectorStep N file).1 < (N : Int) ∧
      pyIntParse (selectorStep N file).2 = some (selectorStep N file).1 := by
  have hNpos : (0 : Int) < (N : Int) := by exact_mod_cast hN
  have h0 : 0 ≤ (readLastIndex file + 1) % (N : Int) :=
    Int.emod_nonneg _ (ne_of_gt hNpos)
  have h1 : (readLastIndex file + 1) % (N : Int) < (N : Int) :=
    Int.emod_lt_of_pos _ hNpos
  refine ⟨h0, h1, ?_⟩
  show pyIntParse (natToStr ((readLastIndex file + 1) % (N : Int)).toNat) =
    some ((readLastIndex file + 1) % (N : Int))
  rw [pyIntParse_natToStr, Int.toNat_of_nonneg h0]

/-- Witness for C9 with two candidates and a stale negative stored index. -/
theorem claim9_selector_invariant_witness :
    0 ≤ (selectorStep 2 (some ("-7".toList))).1 ∧
      (selectorStep 2 (some ("-7".toList))).1 < (2 : Int) ∧
      pyIntParse (selectorStep 2 (some ("-7".toList))).2 =
        some (selectorStep 2 (some ("-7".toList))).1 := by
  have h := claim9_selector_invariant 2 (by decide) (some ("-7".toList))
  exact_mod_cast h

/-- Claim C1: one selector call on a state file storing index `L` returns
`(L + 1) mod N` and persists it (the written text parses back to the same
index); consequently a fresh call sequence with no external interference
returns `0, 1, ..., N-1, 0, 1, ...`: the `(k+1)`-th call returns `k mod N`,
so each block of `N` consecutive calls visits every index exactly once. -/
theorem claim1_selector_cycle (N : Nat) (hN : 1 ≤ N) :
    (∀ (s : List Char) (L : Int), pyIntParse s = some L →
      (selectorStep N (some s)).1 = (L + 1) % (N : Int) ∧
        pyIntParse (selectorStep N (some s)).2 = some ((L + 1) % (N : Int))) ∧
    (∀ k : Nat, selIdx N k = (k : Int) % (N : Int)) ∧
    (∀ c j : Nat, j < N → selIdx N (c * N + j) = (j : Int)) := by
  have hNpos : (0 : Int) < (N : Int) := by exact_mod_cast hN
  have hcycle : ∀ k : Nat, selIdx N k = (k : Int) % (N : Int) := by
    intro k
    induction k with
    | zero =>
      show (readLastIndex none + 1) % (N : Int) = ((0 : Nat) : Int) % (N : Int)
      simp [readLastIndex]
    | succ k ih =>
      have hprev : 0 ≤ selIdx N k := by
        rw [ih]
        exact Int.emod_nonneg _ (ne_of_gt hNpos)
      have hstate : selState N (k + 1) =
          some (natToStr (selIdx N k).toNat) := rfl
      show (readLastIndex (selState N (k + 1)) + 1) % (N : Int) = _
      rw [hstate, readLastIndex_natToStr, Int.toNat_of_nonneg hprev, ih,
        Int.emod_add_emod]
      push_cast
      rfl
  refine ⟨?_, hcycle, ?_⟩
  · intro s L hs
    have hr : readLastIndex (some s) = L := by simp [readLastIndex, hs]
    constructor
    · show (readLastIndex (some s) + 1) % (N : Int) = (L + 1) % (N : Int)
      rw [hr]
    · have hnn : 0 ≤ (L + 1) % (N : Int) :=
        Int.emod_nonneg _ (ne_of_gt hNpos)
      show pyIntParse (natToStr (((readLastIndex (some s)) + 1) %
          (N : Int)).toNat) = some ((L + 1) % (N : Int))
      rw [hr, pyIntParse_natToStr, Int.toNat_of_nonneg hnn]
  · intro c j hj
    rw [hcycle (c * N + j)]
    push_cast
    rw [add_comm ((c : Int) * (N : Int)) (j : Int), Int.add_mul_emod_self]
    exact Int.emod_eq_of_lt (by exact_mod_cast Nat.zero_le j)
      (by exact_mod_cast hj)

/-- Witness for C1 with three candidates: a stored index parses and steps,
and the fresh sequence cycles `0, 1, 2, 0, ...`. -/
theorem claim1_selector_cycle_witness :
    (selectorStep 3 (some ("1".toList))).1 = (1 + 1) % (3 : Int) ∧
      selIdx 3 4 = (4 : Int) % (3 : Int) ∧ selIdx 3 (1 * 3 + 2) = (2 : Int) := by
  obtain ⟨h1, h2, h3⟩ := claim1_selector_cycle 3 (by decide)
  exact ⟨(h1 ("1".toList) 1 (by decide)).1, h2 4, h3 1 2 (by decide)⟩
